import Mathlib

/-!
Shallow embedding of the `lc` repository's `attest` package (timing-strategy
builder state machine over HTTP/CLI test plans) and of the
`internal/state` package (the colon-delimited `lc.state` record), with
theorems settling the frozen claims about them.

Conventions:
* Go `time.Duration` (an `int64` of nanoseconds) is modelled as `Int`;
  no arithmetic is performed on durations here, so overflow is irrelevant.
* A Go `panic` in a builder method is modelled as `Except.error` carrying the
  panic message; normal return is `Except.ok`.
* Go pointers to plans are modelled, where pointer identity and aliasing
  matter, by a heap (a list of plan values indexed by address).
-/

namespace Attest

/-- The `timing` enum: `TimingImmediate`, `TimingEventually`,
`TimingConsistently`. -/
inductive Timing where
  | Immediate
  | Eventually
  | Consistently
deriving DecidableEq, Repr

/-- Durations (`time.Duration`, int64 nanoseconds). -/
abbrev Duration := Int

/-- Modelled from the spec: the `Config` struct is not part of the sources at
hand (only the field access `config.DefaultRetryTimeout` appears there).  Per
the spec, a Config carries a default retry timeout, a default consistency
duration and a cancellation context (the context is modelled as an opaque
identifier, since only its identity matters to the builder claims). -/
structure Config where
  DefaultRetryTimeout : Duration
  DefaultConsistencyDuration : Duration
  ctxId : Nat
deriving DecidableEq, Repr

/-- `PlanBase`: shared timing state of a plan.  The Go field `ctx
context.Context` is modelled as an opaque identifier; the Go field `config
*Config` as a `Config` value (the sharing of one Config by all plans is not at
issue in any claim about `PlanBase` itself). -/
structure PlanBase where
  timing : Timing
  timeout : Duration
  ctx : Nat
  config : Config
deriving DecidableEq, Repr

/-- `func (b *PlanBase) setEventually()`. -/
def PlanBase.setEventually (b : PlanBase) : PlanBase :=
  { b with timing := .Eventually, timeout := b.config.DefaultRetryTimeout }

/-- The panic message of `setWithin`. -/
def withinPanicMsg : String :=
  "Within() can only be called after Eventually()"

/-- The panic message of `setFor`. -/
def forPanicMsg : String :=
  "For() can only be called after Consistently()"

/-- `func (b *PlanBase) setWithin(timeout time.Duration)`: panics unless the
timing is `Eventually`. -/
def PlanBase.setWithin (b : PlanBase) (timeout : Duration) :
    Except String PlanBase :=
  if b.timing ≠ Timing.Eventually then
    .error withinPanicMsg
  else
    .ok { b with timeout := timeout }

/-- `func (b *PlanBase) setConsistently()`.  Note: the source sets
`b.timeout = b.config.DefaultRetryTimeout`. -/
def PlanBase.setConsistently (b : PlanBase) : PlanBase :=
  { b with timing := .Consistently, timeout := b.config.DefaultRetryTimeout }

/-- `func (b *PlanBase) setFor(timeout time.Duration)`: panics unless the
timing is `Consistently`. -/
def PlanBase.setFor (b : PlanBase) (timeout : Duration) :
    Except String PlanBase :=
  if b.timing ≠ Timing.Consistently then
    .error forPanicMsg
  else
    .ok { b with timeout := timeout }

/-- `HTTPPlan`: embeds `PlanBase`; header map `H` modelled as an association
list, the byte-slice body as a list of byte values. -/
structure HTTPPlan extends PlanBase where
  method : String
  url : String
  headers : List (String × String)
  body : List Nat
deriving DecidableEq, Repr

/-- `func (p *HTTPPlan) Eventually() *HTTPPlan`. -/
def HTTPPlan.Eventually (p : HTTPPlan) : HTTPPlan :=
  { p with toPlanBase := p.toPlanBase.setEventually }

/-- `func (p *HTTPPlan) Within(timeout time.Duration) *HTTPPlan`. -/
def HTTPPlan.Within (p : HTTPPlan) (timeout : Duration) :
    Except String HTTPPlan :=
  (p.toPlanBase.setWithin timeout).map fun b => { p with toPlanBase := b }

/-- `func (p *HTTPPlan) Consistently() *HTTPPlan`. -/
def HTTPPlan.Consistently (p : HTTPPlan) : HTTPPlan :=
  { p with toPlanBase := p.toPlanBase.setConsistently }

/-- `func (p *HTTPPlan) For(timeout time.Duration) *HTTPPlan`. -/
def HTTPPlan.For (p : HTTPPlan) (timeout : Duration) :
    Except String HTTPPlan :=
  (p.toPlanBase.setFor timeout).map fun b => { p with toPlanBase := b }

/-- `CLIPlan`: embeds `PlanBase`. -/
structure CLIPlan extends PlanBase where
  command : String
  args : List String
deriving DecidableEq, Repr

/-- `func (p *CLIPlan) Eventually() *CLIPlan`. -/
def CLIPlan.Eventually (p : CLIPlan) : CLIPlan :=
  { p with toPlanBase := p.toPlanBase.setEventually }

/-- `func (p *CLIPlan) Within(timeout time.Duration) *CLIPlan`. -/
def CLIPlan.Within (p : CLIPlan) (timeout : Duration) :
    Except String CLIPlan :=
  (p.toPlanBase.setWithin timeout).map fun b => { p with toPlanBase := b }

/-- `func (p *CLIPlan) Consistently() *CLIPlan`. -/
def CLIPlan.Consistently (p : CLIPlan) : CLIPlan :=
  { p with toPlanBase := p.toPlanBase.setConsistently }

/-- `func (p *CLIPlan) For(timeout time.Duration) *CLIPlan`. -/
def CLIPlan.For (p : CLIPlan) (timeout : Duration) :
    Except String CLIPlan :=
  (p.toPlanBase.setFor timeout).map fun b => { p with toPlanBase := b }

/-- An address on the heap of plans: Go plan values live behind pointers. -/
abbrev Addr := Nat

/-- A heap of `HTTPPlan` values; the address is the index. -/
abbrev HTTPHeap := List HTTPPlan

/-- A heap of `CLIPlan` values; the address is the index. -/
abbrev CLIHeap := List CLIPlan

/-- `HTTPAssert`: the source constructs it as
`HTTPAssert{AssertBase: AssertBase{config: p.config}, plan: p}`; the field
`plan` is a pointer, modelled here as an address into an `HTTPHeap`. -/
structure HTTPAssert where
  config : Config
  plan : Addr
deriving DecidableEq, Repr

/-- `CLIAssert`: as `HTTPAssert`, built from `p.config` and the pointer `p`. -/
structure CLIAssert where
  config : Config
  plan : Addr
deriving DecidableEq, Repr

/-- `func (p *HTTPPlan) Eventually() *HTTPPlan` under the heap model: the
method mutates the plan behind the receiver pointer and returns that same
pointer (`return p`).  A dangling address leaves the heap unchanged (the Go
program would crash there; no claim concerns that case). -/
def HTTPPlan.EventuallyRef (h : HTTPHeap) (a : Addr) : HTTPHeap × Addr :=
  match h.get? a with
  | some p => (h.set a p.Eventually, a)
  | none => (h, a)

/-- `func (p *HTTPPlan) Within(timeout) *HTTPPlan` under the heap model. -/
def HTTPPlan.WithinRef (h : HTTPHeap) (a : Addr) (d : Duration) :
    Except String (HTTPHeap × Addr) :=
  match h.get? a with
  | some p => (p.Within d).map fun p2 => (h.set a p2, a)
  | none => .ok (h, a)

/-- `func (p *HTTPPlan) Consistently() *HTTPPlan` under the heap model. -/
def HTTPPlan.ConsistentlyRef (h : HTTPHeap) (a : Addr) : HTTPHeap × Addr :=
  match h.get? a with
  | some p => (h.set a p.Consistently, a)
  | none => (h, a)

/-- `func (p *HTTPPlan) For(timeout) *HTTPPlan` under the heap model. -/
def HTTPPlan.ForRef (h : HTTPHeap) (a : Addr) (d : Duration) :
    Except String (HTTPHeap × Addr) :=
  match h.get? a with
  | some p => (p.For d).map fun p2 => (h.set a p2, a)
  | none => .ok (h, a)

/-- `func (p *HTTPPlan) T() *HTTPAssert`: reads `p.config`, stores the plan
pointer itself.  The heap is not modified. -/
def HTTPPlan.T (h : HTTPHeap) (a : Addr) : Option HTTPAssert :=
  (h.get? a).map fun p => { config := p.config, plan := a }

/-- `func (p *CLIPlan) Eventually() *CLIPlan` under the heap model. -/
def CLIPlan.EventuallyRef (h : CLIHeap) (a : Addr) : CLIHeap × Addr :=
  match h.get? a with
  | some p => (h.set a p.Eventually, a)
  | none => (h, a)

/-- `func (p *CLIPlan) Within(timeout) *CLIPlan` under the heap model. -/
def CLIPlan.WithinRef (h : CLIHeap) (a : Addr) (d : Duration) :
    Except String (CLIHeap × Addr) :=
  match h.get? a with
  | some p => (p.Within d).map fun p2 => (h.set a p2, a)
  | none => .ok (h, a)

/-- `func (p *CLIPlan) Consistently() *CLIPlan` under the heap model. -/
def CLIPlan.ConsistentlyRef (h : CLIHeap) (a : Addr) : CLIHeap × Addr :=
  match h.get? a with
  | some p => (h.set a p.Consistently, a)
  | none => (h, a)

/-- `func (p *CLIPlan) For(timeout) *CLIPlan` under the heap model. -/
def CLIPlan.ForRef (h : CLIHeap) (a : Addr) (d : Duration) :
    Except String (CLIHeap × Addr) :=
  match h.get? a with
  | some p => (p.For d).map fun p2 => (h.set a p2, a)
  | none => .ok (h, a)

/-- `func (p *CLIPlan) T() *CLIAssert`. -/
def CLIPlan.T (h : CLIHeap) (a : Addr) : Option CLIAssert :=
  (h.get? a).map fun p => { config := p.config, plan := a }

/-- Modelled from the spec: the Assert check methods are not part of the
sources at hand; per the spec each check "is an independent execution using
the Plan's timing", so the timing an `HTTPAssert` uses at check time is the
timing read through its stored plan pointer from the current heap. -/
def HTTPAssert.usedTiming (h : HTTPHeap) (t : HTTPAssert) :
    Option (Timing × Duration) :=
  (h.get? t.plan).map fun p => (p.timing, p.timeout)

/-- Modelled from the spec: timing a `CLIAssert` uses at check time, read
through its stored plan pointer from the current heap. -/
def CLIAssert.usedTiming (h : CLIHeap) (t : CLIAssert) :
    Option (Timing × Duration) :=
  (h.get? t.plan).map fun p => (p.timing, p.timeout)

end Attest

namespace LCState

/-- Characters Go's `strings.TrimSpace` removes (`unicode.IsSpace`), for the
Latin-1 range; the claims about the state file only involve whether fields are
fixed points of the same trimming, so the further Unicode space code points
are irrelevant to them. -/
def isSpace (c : Char) : Bool :=
  c = ' ' || c = '\t' || c = '\n' || c = (Char.ofNat 11) ||
  c = (Char.ofNat 12) || c = '\r' || c = (Char.ofNat 0x85) ||
  c = (Char.ofNat 0xA0)

/-- Leading-whitespace removal. -/
def trimLeft (l : List Char) : List Char := l.dropWhile isSpace

/-- Trailing-whitespace removal. -/
def trimRight (l : List Char) : List Char :=
  (l.reverse.dropWhile isSpace).reverse

/-- `strings.TrimSpace`, on strings as lists of characters. -/
def trimSpace (l : List Char) : List Char := trimRight (trimLeft l)

/-- `strings.SplitN(content, ":", 2)` when a colon occurs: the part before the
first colon and everything after it; `none` when the string has no colon (the
`len(parts) != 2` case). -/
def splitFirstColon : List Char → Option (List Char × List Char)
  | [] => none
  | c :: rest =>
    if c = ':' then some ([], rest)
    else (splitFirstColon rest).map fun p => (c :: p.1, p.2)

/-- The `State` struct of `internal/state`. -/
structure State where
  Challenge : List Char
  Stage : List Char
deriving DecidableEq, Repr

/-- What reading the state file yields: the file may be absent (the
`os.IsNotExist` branch), unreadable (the `os.ReadFile` error branch), or
present with some content. -/
inductive ReadResult where
  | notExist
  | readErr
  | content (s : List Char)
deriving DecidableEq, Repr

/-- The error cases of `Load`. -/
inductive LoadError where
  | notInChallengeDir
  | readFailed
  | invalidFormat
deriving DecidableEq, Repr

/-- `func Load() (*State, error)`, with the file-system read abstracted into
the `ReadResult` argument: stat-missing and read errors are returned as
errors; otherwise the content is trimmed, split at the first colon (no colon
is the invalid-format error), and both parts are trimmed. -/
def Load : ReadResult → Except LoadError State
  | .notExist => .error .notInChallengeDir
  | .readErr => .error .readFailed
  | .content s =>
    match splitFirstColon (trimSpace s) with
    | none => .error .invalidFormat
    | some (a, b) => .ok { Challenge := trimSpace a, Stage := trimSpace b }

/-- `func SaveTo(st *State, path string) error` writes
`fmt.Sprintf("%s:%s\n", st.Challenge, st.Stage)` to the file; this model
returns the written content (the path and write errors play no role in the
round-trip claim). -/
def SaveTo (st : State) : List Char :=
  st.Challenge ++ ':' :: (st.Stage ++ ['\n'])

/-- A concrete state for concrete evaluations. -/
def stEx : State := { Challenge := ['k', 'v'], Stage := ['s', '1'] }

/-- A concrete challenge name with no colon. -/
def demoA : List Char := ['k', 'v']

/-- A concrete stage string that itself contains a colon. -/
def demoB : List Char := ['a', ':', 'b']

/-- A concrete file content with leading/trailing whitespace around
`kv:a:b`. -/
def demoContent : List Char :=
  ' ' :: (demoA ++ ':' :: demoB ++ ['\n'])

end LCState

namespace Attest

/-- A concrete Config with distinct defaults, for concrete evaluations. -/
def cfgEx : Config :=
  { DefaultRetryTimeout := 1000, DefaultConsistencyDuration := 2000, ctxId := 0 }

/-- A freshly built plan base: timing starts at the zero value
`TimingImmediate`, timeout at 0. -/
def baseEx : PlanBase :=
  { timing := .Immediate, timeout := 0, ctx := 0, config := cfgEx }

/-- A concrete HTTP plan in the initial (Immediate) state. -/
def httpEx : HTTPPlan :=
  { toPlanBase := baseEx, method := "GET", url := "/health", headers := [],
    body := [] }

/-- A concrete CLI plan in the initial (Immediate) state. -/
def cliEx : CLIPlan :=
  { toPlanBase := baseEx, command := "echo", args := ["ok"] }

/-- `httpEx` after `Eventually()`. -/
def httpEvEx : HTTPPlan := httpEx.Eventually

/-- `cliEx` after `Eventually()`. -/
def cliEvEx : CLIPlan := cliEx.Eventually

/-- `httpEx` after `Consistently()`. -/
def httpCoEx : HTTPPlan := httpEx.Consistently

/-- `cliEx` after `Consistently()`. -/
def cliCoEx : CLIPlan := cliEx.Consistently

/-- `httpEvEx` with its timeout overridden to 5, the expected result of
`Within(5)`. -/
def httpEvEx5 : HTTPPlan :=
  { httpEvEx with toPlanBase := { httpEvEx.toPlanBase with timeout := 5 } }

/-- `cliEvEx` with its timeout overridden to 5. -/
def cliEvEx5 : CLIPlan :=
  { cliEvEx with toPlanBase := { cliEvEx.toPlanBase with timeout := 5 } }

/-- `httpCoEx` with its timeout overridden to 5, the expected result of
`For(5)`. -/
def httpCoEx5 : HTTPPlan :=
  { httpCoEx with toPlanBase := { httpCoEx.toPlanBase with timeout := 5 } }

/-- `cliCoEx` with its timeout overridden to 5. -/
def cliCoEx5 : CLIPlan :=
  { cliCoEx with toPlanBase := { cliCoEx.toPlanBase with timeout := 5 } }

/-- The assert produced by `T()` on the plan at address 0 of the one-plan
heap `[httpEx]`. -/
def httpAssertEx : HTTPAssert := { config := cfgEx, plan := 0 }

/-- The assert produced by `T()` on the plan at address 0 of the one-plan
heap `[cliEx]`. -/
def cliAssertEx : CLIAssert := { config := cfgEx, plan := 0 }

end Attest

namespace Attest

/-- C1 counterexample: on a Config whose retry and consistency defaults
differ, `Consistently()` installs the retry-timeout default, not the
consistency-duration default, so the claim fails at this concrete input. -/
theorem consistently_config_default_cex :
    httpEx.Consistently.timeout ≠ cfgEx.DefaultConsistencyDuration ∧
    httpEx.config = cfgEx := by
  constructor
  · decide
  · rfl

/-- C1 (amended): for every HTTP or CLI plan, in any prior timing state,
`Consistently()` sets the timing to Consistently and the duration to the
Config's default retry timeout (the source's `setConsistently` reads
`DefaultRetryTimeout`, the same field `Eventually()` uses, not a separate
consistency default). -/
theorem consistently_sets_retry_default (p : HTTPPlan) (q : CLIPlan) :
    p.Consistently.timing = Timing.Consistently ∧
    p.Consistently.timeout = p.config.DefaultRetryTimeout ∧
    q.Consistently.timing = Timing.Consistently ∧
    q.Consistently.timeout = q.config.DefaultRetryTimeout := by
  exact ⟨rfl, rfl, rfl, rfl⟩

/-- C2: for every plan (HTTP or CLI) and duration, `Within(d)` in any state
other than Eventually, and `For(d)` in any state other than Consistently,
deterministically raises the builder-misuse panic with its fixed message;
and `Within(d)` right after `Eventually()` (resp. `For(d)` right after
`Consistently()`) never faults. -/
theorem within_for_misuse_fault (p : HTTPPlan) (q : CLIPlan) (d : Duration) :
    (p.timing ≠ Timing.Eventually → p.Within d = .error withinPanicMsg) ∧
    (p.timing ≠ Timing.Consistently → p.For d = .error forPanicMsg) ∧
    (p.Eventually.Within d).isOk = true ∧
    (p.Consistently.For d).isOk = true ∧
    (q.timing ≠ Timing.Eventually → q.Within d = .error withinPanicMsg) ∧
    (q.timing ≠ Timing.Consistently → q.For d = .error forPanicMsg) ∧
    (q.Eventually.Within d).isOk = true ∧
    (q.Consistently.For d).isOk = true := by
  refine ⟨fun h => ?_, fun h => ?_, ?_, ?_, fun h => ?_, fun h => ?_, ?_, ?_⟩ <;>
    simp_all [HTTPPlan.Within, HTTPPlan.For, HTTPPlan.Eventually,
      HTTPPlan.Consistently, CLIPlan.Within, CLIPlan.For, CLIPlan.Eventually,
      CLIPlan.Consistently, PlanBase.setWithin, PlanBase.setFor,
      PlanBase.setEventually, PlanBase.setConsistently, Except.map,
      Except.isOk, Except.toBool]

/-- C2 witness: concrete plans in the Immediate state fault on `Within`/`For`,
and never fault after `Eventually()`/`Consistently()`. -/
theorem within_for_misuse_fault_witness :
    httpEx.Within 5 = .error withinPanicMsg ∧
    httpEx.For 5 = .error forPanicMsg ∧
    (httpEx.Eventually.Within 5).isOk = true ∧
    (httpEx.Consistently.For 5).isOk = true ∧
    cliEx.Within 5 = .error withinPanicMsg ∧
    cliEx.For 5 = .error forPanicMsg ∧
    (cliEx.Eventually.Within 5).isOk = true ∧
    (cliEx.Consistently.For 5).isOk = true := by
  have h := within_for_misuse_fault httpEx cliEx 5
  exact ⟨h.1 (by decide), h.2.1 (by decide), h.2.2.1, h.2.2.2.1,
    h.2.2.2.2.1 (by decide), h.2.2.2.2.2.1 (by decide),
    h.2.2.2.2.2.2.1, h.2.2.2.2.2.2.2⟩

/-- C4: for every HTTP or CLI plan in the Immediate state, `Eventually()`
moves the timing to Eventually and sets the duration to the Config's default
retry timeout. -/
theorem eventually_from_immediate (p : HTTPPlan) (q : CLIPlan)
    (hp : p.timing = Timing.Immediate) (hq : q.timing = Timing.Immediate) :
    p.Eventually.timing = Timing.Eventually ∧
    p.Eventually.timeout = p.config.DefaultRetryTimeout ∧
    q.Eventually.timing = Timing.Eventually ∧
    q.Eventually.timeout = q.config.DefaultRetryTimeout := by
  exact ⟨rfl, rfl, rfl, rfl⟩

/-- C4 witness at the concrete Immediate-state plans. -/
theorem eventually_from_immediate_witness :
    httpEx.timing = Timing.Immediate ∧ cliEx.timing = Timing.Immediate ∧
    (httpEx.Eventually.timing = Timing.Eventually ∧
     httpEx.Eventually.timeout = httpEx.config.DefaultRetryTimeout ∧
     cliEx.Eventually.timing = Timing.Eventually ∧
     cliEx.Eventually.timeout = cliEx.config.DefaultRetryTimeout) := by
  exact ⟨rfl, rfl, eventually_from_immediate httpEx cliEx rfl rfl⟩

/-- C5: for every HTTP or CLI plan in the Eventually state, `Within(d)`
succeeds and returns the plan with only the timeout replaced by `d`: the
timing mode and every other field (method, URL, headers, body, command, args,
context, config) are those of the original plan. -/
theorem within_overrides_only_duration (p : HTTPPlan) (q : CLIPlan)
    (d : Duration) (hp : p.timing = Timing.Eventually)
    (hq : q.timing = Timing.Eventually) :
    p.Within d = .ok { p with toPlanBase := { p.toPlanBase with timeout := d } } ∧
    q.Within d = .ok { q with toPlanBase := { q.toPlanBase with timeout := d } } := by
  constructor
  · simp [HTTPPlan.Within, PlanBase.setWithin, hp, Except.map]
  · simp [CLIPlan.Within, PlanBase.setWithin, hq, Except.map]

/-- C5 witness: `Within(5)` on the concrete Eventually-state plans replaces
only the timeout. -/
theorem within_overrides_only_duration_witness :
    httpEvEx.timing = Timing.Eventually ∧ cliEvEx.timing = Timing.Eventually ∧
    (httpEvEx.Within 5 = .ok httpEvEx5 ∧ cliEvEx.Within 5 = .ok cliEvEx5) := by
  exact ⟨rfl, rfl, within_overrides_only_duration httpEvEx cliEvEx 5 rfl rfl⟩

/-- C10: for every HTTP or CLI plan, from any timing state (including after
the other mode or a custom duration was chosen), `Eventually()` and
`Consistently()` are accepted and unconditionally overwrite both the timing
mode and the duration with the Config default (`DefaultRetryTimeout` in the
source for both), discarding any duration previously set via
`Within`/`For`. -/
theorem mode_calls_accepted_from_any_state (p : HTTPPlan) (q : CLIPlan) :
    p.Eventually.timing = Timing.Eventually ∧
    p.Eventually.timeout = p.config.DefaultRetryTimeout ∧
    p.Consistently.timing = Timing.Consistently ∧
    p.Consistently.timeout = p.config.DefaultRetryTimeout ∧
    q.Eventually.timing = Timing.Eventually ∧
    q.Eventually.timeout = q.config.DefaultRetryTimeout ∧
    q.Consistently.timing = Timing.Consistently ∧
    q.Consistently.timeout = q.config.DefaultRetryTimeout := by
  exact ⟨rfl, rfl, rfl, rfl, rfl, rfl, rfl, rfl⟩

end Attest

namespace Attest

/-- Helper: an `ok` result of `HTTPPlan.WithinRef` carries the receiver
address. -/
theorem httpWithinRef_addr (h : HTTPHeap) (a : Addr) (d : Duration)
    (r : HTTPHeap × Addr) (hk : HTTPPlan.WithinRef h a d = .ok r) : r.2 = a := by
  unfold HTTPPlan.WithinRef at hk
  split at hk
  · rename_i p hg
    cases hp : p.Within d with
    | error e => rw [hp] at hk; simp [Except.map] at hk
    | ok p2 => rw [hp] at hk; simp [Except.map] at hk; simp [← hk]
  · simp at hk; simp [← hk]

/-- Helper: an `ok` result of `HTTPPlan.ForRef` carries the receiver
address. -/
theorem httpForRef_addr (h : HTTPHeap) (a : Addr) (d : Duration)
    (r : HTTPHeap × Addr) (hk : HTTPPlan.ForRef h a d = .ok r) : r.2 = a := by
  unfold HTTPPlan.ForRef at hk
  split at hk
  · rename_i p hg
    cases hp : p.For d with
    | error e => rw [hp] at hk; simp [Except.map] at hk
    | ok p2 => rw [hp] at hk; simp [Except.map] at hk; simp [← hk]
  · simp at hk; simp [← hk]

/-- Helper: an `ok` result of `CLIPlan.WithinRef` carries the receiver
address. -/
theorem cliWithinRef_addr (c : CLIHeap) (a : Addr) (d : Duration)
    (r : CLIHeap × Addr) (hk : CLIPlan.WithinRef c a d = .ok r) : r.2 = a := by
  unfold CLIPlan.WithinRef at hk
  split at hk
  · rename_i p hg
    cases hp : p.Within d with
    | error e => rw [hp] at hk; simp [Except.map] at hk
    | ok p2 => rw [hp] at hk; simp [Except.map] at hk; simp [← hk]
  · simp at hk; simp [← hk]

/-- Helper: an `ok` result of `CLIPlan.ForRef` carries the receiver
address. -/
theorem cliForRef_addr (c : CLIHeap) (a : Addr) (d : Duration)
    (r : CLIHeap × Addr) (hk : CLIPlan.ForRef c a d = .ok r) : r.2 = a := by
  unfold CLIPlan.ForRef at hk
  split at hk
  · rename_i p hg
    cases hp : p.For d with
    | error e => rw [hp] at hk; simp [Except.map] at hk
    | ok p2 => rw [hp] at hk; simp [Except.map] at hk; simp [← hk]
  · simp at hk; simp [← hk]

/-- C6: under the heap (pointer) model, every timing builder method on an
HTTP or CLI plan returns the very address it was called on — `return p`
returns the identical receiver, so calls chain on one plan.  For the fallible
methods `Within`/`For` this is stated for every run that returns. -/
theorem builder_returns_receiver (h1 h2 : HTTPHeap) (c1 c2 : CLIHeap)
    (a : Addr) (d : Duration) (w1 f1 : HTTPHeap × Addr) (w2 f2 : CLIHeap × Addr)
    (hw : HTTPPlan.WithinRef h1 a d = .ok w1)
    (hf : HTTPPlan.ForRef h2 a d = .ok f1)
    (cw : CLIPlan.WithinRef c1 a d = .ok w2)
    (cf : CLIPlan.ForRef c2 a d = .ok f2) :
    (HTTPPlan.EventuallyRef h1 a).2 = a ∧
    (HTTPPlan.ConsistentlyRef h1 a).2 = a ∧
    w1.2 = a ∧ f1.2 = a ∧
    (CLIPlan.EventuallyRef c1 a).2 = a ∧
    (CLIPlan.ConsistentlyRef c1 a).2 = a ∧
    w2.2 = a ∧ f2.2 = a := by
  refine ⟨?_, ?_, httpWithinRef_addr _ _ _ _ hw, httpForRef_addr _ _ _ _ hf,
    ?_, ?_, cliWithinRef_addr _ _ _ _ cw, cliForRef_addr _ _ _ _ cf⟩ <;>
  · first
    | (unfold HTTPPlan.EventuallyRef; cases h1.get? a <;> rfl)
    | (unfold HTTPPlan.ConsistentlyRef; cases h1.get? a <;> rfl)
    | (unfold CLIPlan.EventuallyRef; cases c1.get? a <;> rfl)
    | (unfold CLIPlan.ConsistentlyRef; cases c1.get? a <;> rfl)

/-- C6 witness: on concrete one-plan heaps all eight builder methods return
address 0, the address they were called on. -/
theorem builder_returns_receiver_witness :
    HTTPPlan.WithinRef [httpEvEx] 0 5 = .ok ([httpEvEx5], 0) ∧
    HTTPPlan.ForRef [httpCoEx] 0 5 = .ok ([httpCoEx5], 0) ∧
    CLIPlan.WithinRef [cliEvEx] 0 5 = .ok ([cliEvEx5], 0) ∧
    CLIPlan.ForRef [cliCoEx] 0 5 = .ok ([cliCoEx5], 0) ∧
    ((HTTPPlan.EventuallyRef [httpEvEx] 0).2 = 0 ∧
     (HTTPPlan.ConsistentlyRef [httpEvEx] 0).2 = 0 ∧
     (([httpEvEx5], 0) : HTTPHeap × Addr).2 = 0 ∧
     (([httpCoEx5], 0) : HTTPHeap × Addr).2 = 0 ∧
     (CLIPlan.EventuallyRef [cliEvEx] 0).2 = 0 ∧
     (CLIPlan.ConsistentlyRef [cliEvEx] 0).2 = 0 ∧
     (([cliEvEx5], 0) : CLIHeap × Addr).2 = 0 ∧
     (([cliCoEx5], 0) : CLIHeap × Addr).2 = 0) := by
  refine ⟨rfl, rfl, rfl, rfl, ?_⟩
  exact builder_returns_receiver [httpEvEx] [httpCoEx] [cliEvEx] [cliCoEx]
    0 5 ([httpEvEx5], 0) ([httpCoEx5], 0) ([cliEvEx5], 0) ([cliCoEx5], 0)
    rfl rfl rfl rfl

/-- C7: `T()` on a live HTTP plan returns an `HTTPAssert` (and on a CLI plan
a `CLIAssert`) that wraps that finalized plan (its address) and carries the
very Config the plan carries. -/
theorem t_returns_matching_assert (h : HTTPHeap) (c : CLIHeap) (a b : Addr)
    (p : HTTPPlan) (q : CLIPlan)
    (hp : h.get? a = some p) (hq : c.get? b = some q) :
    HTTPPlan.T h a = some { config := p.config, plan := a } ∧
    CLIPlan.T c b = some { config := q.config, plan := b } := by
  constructor
  · unfold HTTPPlan.T; rw [hp]; rfl
  · unfold CLIPlan.T; rw [hq]; rfl

/-- C7 witness at concrete one-plan heaps. -/
theorem t_returns_matching_assert_witness :
    ([httpEx] : HTTPHeap).get? 0 = some httpEx ∧
    ([cliEx] : CLIHeap).get? 0 = some cliEx ∧
    (HTTPPlan.T [httpEx] 0 = some { config := httpEx.config, plan := 0 } ∧
     CLIPlan.T [cliEx] 0 = some { config := cliEx.config, plan := 0 }) :=
  ⟨rfl, rfl, t_returns_matching_assert [httpEx] [cliEx] 0 0 httpEx cliEx rfl rfl⟩

end Attest

namespace Attest

/-- C3 counterexample: on the one-plan heap `[httpEx]` (plan in the Immediate
state), `T()` hands out an Assert; a subsequent `Eventually()` call on the
plan changes the timing the already-created Assert reads through its stored
plan pointer from `(Immediate, 0)` to `(Eventually, 1000)`. -/
theorem assert_timing_immutable_cex :
    HTTPPlan.T [httpEx] 0 = some httpAssertEx ∧
    httpAssertEx.usedTiming [httpEx] = some (Timing.Immediate, 0) ∧
    (HTTPPlan.EventuallyRef [httpEx] 0).1 = [httpEvEx] ∧
    httpAssertEx.usedTiming [httpEvEx] = some (Timing.Eventually, 1000) ∧
    httpAssertEx.usedTiming [httpEvEx] ≠ httpAssertEx.usedTiming [httpEx] := by
  refine ⟨rfl, rfl, rfl, rfl, ?_⟩
  decide

/-- C3 (amended): an Assert handed out by `T()` aliases its Plan through a
pointer, so a further builder call on the Plan does change the timing and
duration the Assert uses: after `Eventually()` (resp. `Consistently()`) the
Assert reads that mode with the default retry timeout, and whenever the
plan's mode actually changes, what the Assert reads changes with it — the
source does not disallow builder calls after `T()`. -/
theorem assert_observes_later_builder_calls (h : HTTPHeap) (c : CLIHeap)
    (a b : Addr) (p : HTTPPlan) (q : CLIPlan) (t : HTTPAssert) (u : CLIAssert)
    (hp : h.get? a = some p) (ht : HTTPPlan.T h a = some t)
    (hq : c.get? b = some q) (hu : CLIPlan.T c b = some u) :
    t.usedTiming (HTTPPlan.EventuallyRef h a).1 =
      some (Timing.Eventually, p.config.DefaultRetryTimeout) ∧
    t.usedTiming (HTTPPlan.ConsistentlyRef h a).1 =
      some (Timing.Consistently, p.config.DefaultRetryTimeout) ∧
    (p.timing ≠ Timing.Eventually →
      t.usedTiming (HTTPPlan.EventuallyRef h a).1 ≠ t.usedTiming h) ∧
    u.usedTiming (CLIPlan.EventuallyRef c b).1 =
      some (Timing.Eventually, q.config.DefaultRetryTimeout) ∧
    u.usedTiming (CLIPlan.ConsistentlyRef c b).1 =
      some (Timing.Consistently, q.config.DefaultRetryTimeout) ∧
    (q.timing ≠ Timing.Eventually →
      u.usedTiming (CLIPlan.EventuallyRef c b).1 ≠ u.usedTiming c) := by
  have hlen : a < h.length := (List.get?_eq_some.mp hp).choose
  have hlenc : b < c.length := (List.get?_eq_some.mp hq).choose
  have htp : t.plan = a := by
    unfold HTTPPlan.T at ht
    rw [hp] at ht
    simp at ht
    rw [← ht]
  have hup : u.plan = b := by
    unfold CLIPlan.T at hu
    rw [hq] at hu
    simp at hu
    rw [← hu]
  have hset : ∀ x : HTTPPlan, (h.set a x).get? a = some x := fun x => by
    simp [List.get?_eq_getElem?, List.getElem?_set_self, hlen]
  have hsetc : ∀ x : CLIPlan, (c.set b x).get? b = some x := fun x => by
    simp [List.get?_eq_getElem?, List.getElem?_set_self, hlenc]
  refine ⟨?_, ?_, ?_, ?_, ?_, ?_⟩
  · unfold HTTPPlan.EventuallyRef
    rw [hp]
    simp [HTTPAssert.usedTiming, htp, hset, HTTPPlan.Eventually,
      PlanBase.setEventually, List.getElem?_set_self, hlen]
  · unfold HTTPPlan.ConsistentlyRef
    rw [hp]
    simp [HTTPAssert.usedTiming, htp, hset, HTTPPlan.Consistently,
      PlanBase.setConsistently, List.getElem?_set_self, hlen]
  · intro hne
    unfold HTTPPlan.EventuallyRef
    rw [hp]
    simp [HTTPAssert.usedTiming, htp, hset, hp, HTTPPlan.Eventually,
      PlanBase.setEventually, List.getElem?_set_self, hlen]
    intro heq
    have hpa : h[a] = p := by
      have h2 := hp
      rw [List.get?_eq_getElem?, List.getElem?_eq_getElem hlen] at h2
      exact Option.some.inj h2
    rw [hpa] at heq
    exact (hne heq.symm).elim
  · unfold CLIPlan.EventuallyRef
    rw [hq]
    simp [CLIAssert.usedTiming, hup, hsetc, CLIPlan.Eventually,
      PlanBase.setEventually, List.getElem?_set_self, hlenc]
  · unfold CLIPlan.ConsistentlyRef
    rw [hq]
    simp [CLIAssert.usedTiming, hup, hsetc, CLIPlan.Consistently,
      PlanBase.setConsistently, List.getElem?_set_self, hlenc]
  · intro hne
    unfold CLIPlan.EventuallyRef
    rw [hq]
    simp [CLIAssert.usedTiming, hup, hsetc, hq, CLIPlan.Eventually,
      PlanBase.setEventually, List.getElem?_set_self, hlenc]
    intro heq
    have hqa : (c)[b] = q := by
      have h2 := hq
      rw [List.get?_eq_getElem?, List.getElem?_eq_getElem hlenc] at h2
      exact Option.some.inj h2
    rw [hqa] at heq
    exact (hne heq.symm).elim

/-- C3 amended-claim witness at the concrete one-plan heaps. -/
theorem assert_observes_later_builder_calls_witness :
    ([httpEx] : HTTPHeap).get? 0 = some httpEx ∧
    HTTPPlan.T [httpEx] 0 = some httpAssertEx ∧
    ([cliEx] : CLIHeap).get? 0 = some cliEx ∧
    CLIPlan.T [cliEx] 0 = some cliAssertEx ∧
    (httpAssertEx.usedTiming (HTTPPlan.EventuallyRef [httpEx] 0).1 =
      some (Timing.Eventually, httpEx.config.DefaultRetryTimeout) ∧
     httpAssertEx.usedTiming (HTTPPlan.EventuallyRef [httpEx] 0).1 ≠
      httpAssertEx.usedTiming [httpEx] ∧
     cliAssertEx.usedTiming (CLIPlan.EventuallyRef [cliEx] 0).1 =
      some (Timing.Eventually, cliEx.config.DefaultRetryTimeout) ∧
     cliAssertEx.usedTiming (CLIPlan.EventuallyRef [cliEx] 0).1 ≠
      cliAssertEx.usedTiming [cliEx]) := by
  have h := assert_observes_later_builder_calls [httpEx] [cliEx] 0 0
    httpEx cliEx httpAssertEx cliAssertEx rfl rfl rfl rfl
  exact ⟨rfl, rfl, rfl, rfl, h.1, h.2.2.1 (by decide), h.2.2.2.1,
    h.2.2.2.2.2 (by decide)⟩

end Attest
namespace LCState

/-- Helper: a nonempty `dropWhile` fixed point starts with a character the
predicate rejects. -/
theorem dropWhile_head_false {p : Char → Bool} {x : Char} {xs : List Char}
    (h : (x :: xs).dropWhile p = x :: xs) : p x = false := by
  by_contra hx
  rw [Bool.not_eq_false] at hx
  rw [List.dropWhile_cons_of_pos hx] at h
  have hle : (xs.dropWhile p).length ≤ xs.length :=
    (List.dropWhile_suffix p).length_le
  rw [h] at hle
  simp at hle

/-- Helper: appending to a `dropWhile` fixed point on the right preserves the
fixed point (the appended part being itself a fixed point covers the empty
left part). -/
theorem dropWhile_append_fix {p : Char → Bool} {c r : List Char}
    (hc : c.dropWhile p = c) (hr : r.dropWhile p = r) :
    (c ++ r).dropWhile p = c ++ r := by
  cases c with
  | nil => simpa using hr
  | cons x xs =>
    have hx : p x = false := dropWhile_head_false hc
    rw [List.cons_append, List.dropWhile_cons_of_neg (by simp [hx])]

/-- Helper: a `trimSpace` fixed point is a fixed point of each one-sided
trim. -/
theorem trim_fix_parts {l : List Char} (h : trimSpace l = l) :
    trimLeft l = l ∧ trimRight l = l := by
  have hsuf : trimLeft l <:+ l := List.dropWhile_suffix isSpace
  have h1 : l.length ≤ (trimLeft l).length := by
    conv_lhs => rw [← h]
    unfold trimSpace trimRight
    have h3 := (List.dropWhile_suffix (l := (trimLeft l).reverse) isSpace).length_le
    simp only [List.length_reverse] at h3 ⊢
    exact h3
  have hL : trimLeft l = l := hsuf.eq_of_length (le_antisymm hsuf.length_le h1)
  refine ⟨hL, ?_⟩
  unfold trimSpace at h
  rw [hL] at h
  exact h

/-- Helper: a `trimRight` fixed point reversed is a `dropWhile` fixed
point. -/
theorem trimRight_fix_rev {l : List Char} (h : trimRight l = l) :
    l.reverse.dropWhile isSpace = l.reverse := by
  unfold trimRight at h
  have h2 := congrArg List.reverse h
  simpa using h2

/-- Helper: trimming the saved record `challenge ++ ":" ++ stage ++ "\n"`
strips exactly the final newline when both fields are trim-fixed. -/
theorem trimSpace_save (c s : List Char) (hc : trimSpace c = c)
    (hs : trimSpace s = s) :
    trimSpace (c ++ ':' :: (s ++ ['\n'])) = c ++ ':' :: s := by
  obtain ⟨hcl, hcr⟩ := trim_fix_parts hc
  obtain ⟨hsl, hsr⟩ := trim_fix_parts hs
  have hcolon : ((':' : Char) :: (s ++ ['\n'])).dropWhile isSpace =
      ':' :: (s ++ ['\n']) :=
    List.dropWhile_cons_of_neg (by decide)
  have h1 : trimLeft (c ++ ':' :: (s ++ ['\n'])) = c ++ ':' :: (s ++ ['\n']) :=
    dropWhile_append_fix hcl hcolon
  have hsrev : s.reverse.dropWhile isSpace = s.reverse := trimRight_fix_rev hsr
  have hcolon2 : ((':' : Char) :: c.reverse).dropWhile isSpace =
      ':' :: c.reverse :=
    List.dropWhile_cons_of_neg (by decide)
  have h2 : trimRight (c ++ ':' :: (s ++ ['\n'])) = c ++ ':' :: s := by
    unfold trimRight
    have hrev : (c ++ ':' :: (s ++ ['\n'])).reverse =
        '\n' :: (s.reverse ++ ':' :: c.reverse) := by
      simp
    rw [hrev, List.dropWhile_cons_of_pos (by decide),
      dropWhile_append_fix hsrev hcolon2]
    simp
  unfold trimSpace
  rw [h1]
  exact h2

/-- Helper: splitting at the first colon of `c ++ ":" ++ s` when `c` has no
colon yields `(c, s)`. -/
theorem splitFirstColon_append {c : List Char} (s : List Char)
    (hc : ':' ∉ c) : splitFirstColon (c ++ ':' :: s) = some (c, s) := by
  induction c with
  | nil => simp [splitFirstColon]
  | cons x xs ih =>
    have hx : ¬ x = ':' := fun h => hc (by simp [h])
    rw [List.cons_append]
    simp [splitFirstColon, hx,
      ih (fun h => hc (List.mem_cons_of_mem x h))]

/-- Helper: `splitFirstColon` yields `none` exactly on colon-free strings. -/
theorem splitFirstColon_none_iff (l : List Char) :
    splitFirstColon l = none ↔ ':' ∉ l := by
  induction l with
  | nil => simp [splitFirstColon]
  | cons x xs ih =>
    by_cases hx : x = ':'
    · subst hx
      simp [splitFirstColon]
    · have hx2 : ¬ ((':' : Char) = x) := fun h => hx h.symm
      simp [splitFirstColon, hx, hx2, ih]

/-- Helper: `Load` on file content reduces to the trim-and-split
computation. -/
theorem load_content_eq (s : List Char) :
    Load (.content s) =
      match splitFirstColon (trimSpace s) with
      | none => .error .invalidFormat
      | some (a, b) => .ok { Challenge := trimSpace a, Stage := trimSpace b } :=
  rfl

/-- C8: a `State` whose Challenge has no colon and whose Challenge and Stage
are each fixed points of whitespace trimming round-trips through
`SaveTo`-then-`Load`. -/
theorem state_save_load_roundtrip (st : State) (h1 : ':' ∉ st.Challenge)
    (h2 : trimSpace st.Challenge = st.Challenge)
    (h3 : trimSpace st.Stage = st.Stage) :
    Load (.content (SaveTo st)) = .ok st := by
  rw [load_content_eq,
    show SaveTo st = st.Challenge ++ ':' :: (st.Stage ++ ['\n']) from rfl,
    trimSpace_save _ _ h2 h3, splitFirstColon_append _ h1]
  simp [h2, h3]

/-- C8 witness: the concrete state `kv:s1` round-trips. -/
theorem state_save_load_roundtrip_witness :
    (':' ∉ stEx.Challenge) ∧ trimSpace stEx.Challenge = stEx.Challenge ∧
    trimSpace stEx.Stage = stEx.Stage ∧
    Load (.content (SaveTo stEx)) = .ok stEx := by
  exact ⟨by decide, by decide, by decide,
    state_save_load_roundtrip stEx (by decide) (by decide) (by decide)⟩

/-- C9: `Load` errs exactly on a missing file, an unreadable file, or trimmed
content with no colon; on success it splits the trimmed content at the first
colon only (the part before the first colon has none; everything after it,
colons included, becomes the Stage), and both fields are whitespace-trimmed. -/
theorem load_error_and_split_spec :
    Load .notExist = .error .notInChallengeDir ∧
    Load .readErr = .error .readFailed ∧
    (∀ s : List Char, (Load (.content s)).isOk = true ↔ ':' ∈ trimSpace s) ∧
    (∀ s a b : List Char, trimSpace s = a ++ ':' :: b → ':' ∉ a →
      Load (.content s) =
        .ok { Challenge := trimSpace a, Stage := trimSpace b }) := by
  refine ⟨rfl, rfl, fun s => ?_, fun s a b hs ha => ?_⟩
  · rw [load_content_eq]
    cases hsp : splitFirstColon (trimSpace s) with
    | none =>
      simp [Except.isOk, Except.toBool]
      exact (splitFirstColon_none_iff _).mp hsp
    | some p =>
      obtain ⟨a, b⟩ := p
      simp [Except.isOk, Except.toBool]
      by_contra hnotin
      rw [(splitFirstColon_none_iff _).mpr hnotin] at hsp
      exact Option.noConfusion hsp
  · rw [load_content_eq, hs, splitFirstColon_append _ ha]

/-- C9 witness: concrete instances, including content whose stage part
contains a colon and which carries surrounding whitespace. -/
theorem load_error_and_split_spec_witness :
    Load .notExist = .error .notInChallengeDir ∧
    ((Load (.content demoContent)).isOk = true ↔ ':' ∈ trimSpace demoContent) ∧
    trimSpace demoContent = demoA ++ ':' :: demoB ∧ (':' ∉ demoA) ∧
    Load (.content demoContent) =
      .ok { Challenge := trimSpace demoA, Stage := trimSpace demoB } := by
  have h := load_error_and_split_spec
  exact ⟨h.1, h.2.2.1 demoContent, by decide, by decide,
    h.2.2.2 demoContent demoA demoB (by decide) (by decide)⟩

end LCState
